import Mathlib

/-!
Verification of the arcball / orbital-camera subsystem, the free-fly camera,
the logger string trimming, and the Blinn-Phong fragment shading of the
opengl-sandbox repository.

The C++ sources are shallowly embedded: `glm` vectors and quaternions become
records over the real numbers, member functions become pure state
transformers, and the two C runtime calls that can divide by zero or index
out of bounds are additionally given guarded (`Option`-valued) variants so
that the reachability of their error branches can be stated.
-/

/-- Model of `glm::vec2`: a pair of real coordinates (floats are idealised as reals). -/
structure Vec2 where
  x : ℝ
  y : ℝ

/-- Model of `glm::vec3`. -/
structure Vec3 where
  x : ℝ
  y : ℝ
  z : ℝ

/-- The zero vector `glm::vec3(0.0f)`. -/
def vzero : Vec3 := ⟨0, 0, 0⟩

/-- Componentwise sum, `glm` operator `+` on `vec3`. -/
def vadd (a b : Vec3) : Vec3 := ⟨a.x + b.x, a.y + b.y, a.z + b.z⟩

/-- Componentwise difference, `glm` operator `-` on `vec3`. -/
def vsub (a b : Vec3) : Vec3 := ⟨a.x - b.x, a.y - b.y, a.z - b.z⟩

/-- Scalar multiple, `glm` operator `*` between a scalar and a `vec3`. -/
def vsmul (c : ℝ) (v : Vec3) : Vec3 := ⟨c * v.x, c * v.y, c * v.z⟩

/-- Model of `glm::dot` on `vec3`. -/
def vdot (a b : Vec3) : ℝ := a.x * b.x + a.y * b.y + a.z * b.z

/-- Model of `glm::cross`. -/
def vcross (a b : Vec3) : Vec3 :=
  ⟨a.y * b.z - a.z * b.y, a.z * b.x - a.x * b.z, a.x * b.y - a.y * b.x⟩

/-- Model of `glm::length` on `vec3`: the Euclidean norm. -/
noncomputable def vlength (v : Vec3) : ℝ :=
  Real.sqrt (v.x * v.x + v.y * v.y + v.z * v.z)

/-- Model of `glm::normalize` on `vec3`: division of the vector by its norm.
Total like the C++ code is (on the zero vector the real-number convention
`1 / 0 = 0` stands in for the undefined float result); the guarded variant
`vnormalizeChecked` exposes the division-by-zero branch. -/
noncomputable def vnormalize (v : Vec3) : Vec3 := vsmul (1 / vlength v) v

/-- Guarded variant of `glm::normalize`: `none` exactly when the norm of the
argument is zero and the division in `normalize` has no defined result. -/
noncomputable def vnormalizeChecked (v : Vec3) : Option Vec3 :=
  if vlength v = 0 then none else some (vnormalize v)

/-- Model of `glm::quat` with components `(w, x, y, z)`. -/
structure Quat where
  w : ℝ
  x : ℝ
  y : ℝ
  z : ℝ

/-- Hamilton product, `glm` operator `*` on quaternions. -/
def qMul (p q : Quat) : Quat :=
  ⟨p.w * q.w - p.x * q.x - p.y * q.y - p.z * q.z,
   p.w * q.x + p.x * q.w + p.y * q.z - p.z * q.y,
   p.w * q.y + p.y * q.w + p.z * q.x - p.x * q.z,
   p.w * q.z + p.z * q.w + p.x * q.y - p.y * q.x⟩

/-- Norm of a quaternion, `glm::length` on `quat`. -/
noncomputable def qLength (q : Quat) : ℝ :=
  Real.sqrt (q.w * q.w + q.x * q.x + q.y * q.y + q.z * q.z)

/-- Model of `glm::normalize` on quaternions: division by the norm. -/
noncomputable def qNormalize (q : Quat) : Quat :=
  ⟨(1 / qLength q) * q.w, (1 / qLength q) * q.x,
   (1 / qLength q) * q.y, (1 / qLength q) * q.z⟩

/-- Model of `glm::angleAxis angle axis`: the quaternion with scalar part
`cos (angle / 2)` and vector part `sin (angle / 2) * axis`. -/
noncomputable def angleAxis (angle : ℝ) (axis : Vec3) : Quat :=
  ⟨Real.cos (angle / 2), Real.sin (angle / 2) * axis.x,
   Real.sin (angle / 2) * axis.y, Real.sin (angle / 2) * axis.z⟩

/-- Model of `glm::mat4_cast` on a quaternion, written as a row-indexed
mathematical matrix (entry `(row, col)` is glm column-major `Result[col][row]`). -/
noncomputable def mat4cast (q : Quat) : Matrix (Fin 4) (Fin 4) ℝ :=
  Matrix.of
    ![![1 - 2 * (q.y * q.y + q.z * q.z), 2 * (q.x * q.y - q.w * q.z),
       2 * (q.x * q.z + q.w * q.y), 0],
      ![2 * (q.x * q.y + q.w * q.z), 1 - 2 * (q.x * q.x + q.z * q.z),
       2 * (q.y * q.z - q.w * q.x), 0],
      ![2 * (q.x * q.z - q.w * q.y), 2 * (q.y * q.z + q.w * q.x),
       1 - 2 * (q.x * q.x + q.y * q.y), 0],
      ![0, 0, 0, 1]]

/-- Model of right-handed `glm::lookAt eye center up` as a row-indexed matrix. -/
noncomputable def lookAtM (eye center up : Vec3) : Matrix (Fin 4) (Fin 4) ℝ :=
  let f := vnormalize (vsub center eye)
  let s := vnormalize (vcross f up)
  let u := vcross s f
  Matrix.of
    ![![s.x, s.y, s.z, -(vdot s eye)],
      ![u.x, u.y, u.z, -(vdot u eye)],
      ![-f.x, -f.y, -f.z, vdot f eye],
      ![0, 0, 0, 1]]

/-- Constant `Arcball::IDENTITY_QUATERNION = glm::quat(1.0f, glm::vec3(0.0f))`. -/
def IDENTITY_QUATERNION : Quat := ⟨1, 0, 0, 0⟩

/-- Constant `Arcball::DEFAULT_RADIUS`. -/
def DEFAULT_RADIUS : ℝ := 1

/-- State of an `Arcball` object (arcball.cpp / arcball.h).  The C++ member
`end` is renamed `endPt` because `end` is reserved in Lean. -/
structure Arcball where
  radius : ℝ
  invertY : Bool
  start : Vec2
  endPt : Vec2
  lastRotation : Quat
  currentRotation : Quat
  rotating : Bool

/-- Constructor `Arcball::Arcball(radius, invertY)`; the `rotating` flag keeps
its in-class initialiser `false`. -/
def mkArcball (radius : ℝ) (invertY : Bool) : Arcball :=
  { radius := radius, invertY := invertY, start := ⟨0, 0⟩, endPt := ⟨0, 0⟩,
    lastRotation := IDENTITY_QUATERNION, currentRotation := IDENTITY_QUATERNION,
    rotating := false }

/-- Shared prologue of `beginRotation` and `rotate`:
`if (!invertY) pos.y *= -1.0f;`. -/
def adjustPos (invertY : Bool) (pos : Vec2) : Vec2 :=
  if invertY then pos else ⟨pos.x, -pos.y⟩

/-- `Arcball::mapToSurface` (arcball.cpp): projects a 2D NDC position onto the
upper hemisphere of the configured radius, or onto the plane `z = 0` outside it. -/
noncomputable def mapToSurface (radius : ℝ) (pos : Vec2) : Vec3 :=
  let rSquared := radius * radius
  let xSquared := pos.x * pos.x
  let ySquared := pos.y * pos.y
  let z := if xSquared + ySquared ≤ rSquared
    then Real.sqrt (rSquared - xSquared - ySquared) else 0
  ⟨pos.x, pos.y, z⟩

/-- `Arcball::computeRotationQuaternion` (arcball.cpp). -/
noncomputable def computeRotationQuaternion (radius : ℝ) (start endv : Vec2) : Quat :=
  let startPos := mapToSurface radius start
  let endPos := mapToSurface radius endv
  let startDotEnd := vdot startPos endPos
  let startMagnitude := vlength startPos
  let endMagnitude := vlength endPos
  let angle := Real.arccos (min (startDotEnd / (startMagnitude * endMagnitude)) 1)
  let axis := vnormalize (vcross startPos endPos)
  qNormalize (angleAxis angle axis)

/-- Guarded variant of `computeRotationQuaternion`: `none` exactly when
`glm::normalize` is applied to the zero cross product and divides by a zero
magnitude. -/
noncomputable def computeRotationQuaternionChecked
    (radius : ℝ) (start endv : Vec2) : Option Quat :=
  let startPos := mapToSurface radius start
  let endPos := mapToSurface radius endv
  let startDotEnd := vdot startPos endPos
  let startMagnitude := vlength startPos
  let endMagnitude := vlength endPos
  let angle := Real.arccos (min (startDotEnd / (startMagnitude * endMagnitude)) 1)
  match vnormalizeChecked (vcross startPos endPos) with
  | none => none
  | some axis => some (qNormalize (angleAxis angle axis))

/-- `Arcball::beginRotation(pos)`. -/
def beginRotation (a : Arcball) (pos : Vec2) : Arcball :=
  { a with start := adjustPos a.invertY pos, rotating := true }

/-- `Arcball::rotate(pos)`. -/
noncomputable def rotate (a : Arcball) (pos : Vec2) : Arcball :=
  { a with endPt := adjustPos a.invertY pos,
           currentRotation :=
             computeRotationQuaternion a.radius a.start (adjustPos a.invertY pos) }

/-- `Arcball::rotate(pos)` routed through the guarded quaternion computation:
`none` exactly when the normalisation of the cross product divides by zero. -/
noncomputable def rotateChecked (a : Arcball) (pos : Vec2) : Option Arcball :=
  match computeRotationQuaternionChecked a.radius a.start (adjustPos a.invertY pos) with
  | none => none
  | some q => some { a with endPt := adjustPos a.invertY pos, currentRotation := q }

/-- `Arcball::endRotation()`. -/
def endRotation (a : Arcball) : Arcball :=
  { a with lastRotation := qMul a.currentRotation a.lastRotation,
           currentRotation := IDENTITY_QUATERNION,
           rotating := false }

/-- `Arcball::getRotationMatrix()`. -/
noncomputable def getRotationMatrix (a : Arcball) : Matrix (Fin 4) (Fin 4) ℝ :=
  mat4cast (qMul a.currentRotation a.lastRotation)

/-- Norm of a scalar multiple: auxiliary lemma for the `normalize` facts. -/
theorem vlength_vsmul (c : ℝ) (v : Vec3) : vlength (vsmul c v) = |c| * vlength v := by
  unfold vlength vsmul
  have h : c * v.x * (c * v.x) + c * v.y * (c * v.y) + c * v.z * (c * v.z)
      = c ^ 2 * (v.x * v.x + v.y * v.y + v.z * v.z) := by ring
  simp only [h]
  rw [Real.sqrt_mul (sq_nonneg c), Real.sqrt_sq_eq_abs]

/-- The norm vanishes only on the zero vector. -/
theorem vlength_eq_zero_iff (v : Vec3) : vlength v = 0 ↔ v = vzero := by
  unfold vlength vzero
  constructor
  · intro h
    have hs : v.x * v.x + v.y * v.y + v.z * v.z = 0 := by
      have hnn : 0 ≤ v.x * v.x + v.y * v.y + v.z * v.z := by
        nlinarith [mul_self_nonneg v.x, mul_self_nonneg v.y, mul_self_nonneg v.z]
      exact (Real.sqrt_eq_zero hnn).mp h
    have hx : v.x = 0 := by nlinarith [sq_nonneg v.x, sq_nonneg v.y, sq_nonneg v.z]
    have hy : v.y = 0 := by nlinarith [sq_nonneg v.x, sq_nonneg v.y, sq_nonneg v.z]
    have hz : v.z = 0 := by nlinarith [sq_nonneg v.x, sq_nonneg v.y, sq_nonneg v.z]
    cases v
    simp_all
  · intro h
    subst h
    simp

/-- A nonzero vector normalises to a unit vector. -/
theorem vlength_vnormalize (v : Vec3) (hv : v ≠ vzero) : vlength (vnormalize v) = 1 := by
  have hL : vlength v ≠ 0 := fun h => hv ((vlength_eq_zero_iff v).mp h)
  have hLpos : 0 < vlength v := by
    have : 0 ≤ vlength v := Real.sqrt_nonneg _
    exact lt_of_le_of_ne this (Ne.symm hL)
  unfold vnormalize
  rw [vlength_vsmul]
  rw [abs_of_pos (one_div_pos.mpr hLpos)]
  field_simp

/-- C3: for a nonnegative radius `r`, `Arcball::mapToSurface` sends a pointer
position `p` inside the disc of radius `r` to `(p.x, p.y, sqrt (r^2 - p.x^2 - p.y^2))`,
a point of norm exactly `r` on the upper hemisphere, and any position outside
the disc to `(p.x, p.y, 0)`. -/
theorem mapToSurface_onto_hemisphere (r : ℝ) (p : Vec2) (hr : 0 ≤ r) :
    (p.x * p.x + p.y * p.y ≤ r * r →
      mapToSurface r p = ⟨p.x, p.y, Real.sqrt (r * r - p.x * p.x - p.y * p.y)⟩ ∧
      vlength (mapToSurface r p) = r) ∧
    (¬ p.x * p.x + p.y * p.y ≤ r * r → mapToSurface r p = ⟨p.x, p.y, 0⟩) := by
  constructor
  · intro hin
    constructor
    · unfold mapToSurface
      simp only [hin, if_pos]
    · unfold mapToSurface vlength
      simp only [hin, if_pos]
      have hnn : 0 ≤ r * r - p.x * p.x - p.y * p.y := by linarith
      rw [Real.mul_self_sqrt hnn]
      have h2 : p.x * p.x + p.y * p.y + (r * r - p.x * p.x - p.y * p.y) = r * r := by ring
      rw [h2, Real.sqrt_mul_self hr]
  · intro hout
    unfold mapToSurface
    simp only [hout, if_neg, if_false]

/-- Witness for C3 at radius `1` and position `(0, 0)`. -/
theorem mapToSurface_onto_hemisphere_witness :
    (0 : ℝ) ≤ 1 ∧
    (((0 : ℝ) * 0 + (0 : ℝ) * 0 ≤ 1 * 1 →
      mapToSurface 1 ⟨0, 0⟩ = ⟨0, 0, Real.sqrt (1 * 1 - 0 * 0 - 0 * 0)⟩ ∧
      vlength (mapToSurface 1 ⟨0, 0⟩) = 1) ∧
    (¬ (0 : ℝ) * 0 + (0 : ℝ) * 0 ≤ 1 * 1 → mapToSurface 1 ⟨0, 0⟩ = ⟨0, 0, 0⟩)) :=
  ⟨by norm_num, mapToSurface_onto_hemisphere 1 ⟨0, 0⟩ (by norm_num)⟩

/-- A quaternion built by `angleAxis` from a unit axis has unit norm. -/
theorem qLength_angleAxis (angle : ℝ) (u : Vec3) (hu : vlength u = 1) :
    qLength (angleAxis angle u) = 1 := by
  have hS0 : 0 ≤ u.x * u.x + u.y * u.y + u.z * u.z := by
    nlinarith [mul_self_nonneg u.x, mul_self_nonneg u.y, mul_self_nonneg u.z]
  have hS : u.x * u.x + u.y * u.y + u.z * u.z = 1 := by
    unfold vlength at hu
    calc u.x * u.x + u.y * u.y + u.z * u.z
        = Real.sqrt (u.x * u.x + u.y * u.y + u.z * u.z) *
          Real.sqrt (u.x * u.x + u.y * u.y + u.z * u.z) := (Real.mul_self_sqrt hS0).symm
      _ = 1 := by rw [hu]; norm_num
  unfold qLength angleAxis
  have hcs := Real.sin_sq_add_cos_sq (angle / 2)
  have key : Real.cos (angle / 2) * Real.cos (angle / 2) +
      Real.sin (angle / 2) * u.x * (Real.sin (angle / 2) * u.x) +
      Real.sin (angle / 2) * u.y * (Real.sin (angle / 2) * u.y) +
      Real.sin (angle / 2) * u.z * (Real.sin (angle / 2) * u.z) = 1 := by nlinarith [hS, hcs]
  rw [key, Real.sqrt_one]

/-- Normalising a unit quaternion leaves it unchanged. -/
theorem qNormalize_of_unit (q : Quat) (h : qLength q = 1) : qNormalize q = q := by
  unfold qNormalize
  rw [h]
  cases q
  simp

/-- C1: during an active drag whose mapped start and current surface points
are nonzero and have a nonzero cross product, `Arcball::rotate` stores as the
current rotation exactly the unit quaternion with axis the normalised cross
product of the two surface points and angle the arccosine of their clamped
normalised dot product. -/
theorem rotate_sets_incremental_quaternion (a : Arcball) (pos : Vec2)
    (hrot : a.rotating = true)
    (hs : mapToSurface a.radius a.start ≠ vzero)
    (he : mapToSurface a.radius (adjustPos a.invertY pos) ≠ vzero)
    (hcross : vcross (mapToSurface a.radius a.start)
      (mapToSurface a.radius (adjustPos a.invertY pos)) ≠ vzero) :
    (rotate a pos).currentRotation =
      angleAxis
        (Real.arccos (min
          (vdot (mapToSurface a.radius a.start)
              (mapToSurface a.radius (adjustPos a.invertY pos)) /
            (vlength (mapToSurface a.radius a.start) *
              vlength (mapToSurface a.radius (adjustPos a.invertY pos)))) 1))
        (vnormalize (vcross (mapToSurface a.radius a.start)
          (mapToSurface a.radius (adjustPos a.invertY pos)))) ∧
    qLength (rotate a pos).currentRotation = 1 := by
  have haxis : vlength (vnormalize (vcross (mapToSurface a.radius a.start)
      (mapToSurface a.radius (adjustPos a.invertY pos)))) = 1 :=
    vlength_vnormalize _ hcross
  have hunit : qLength (angleAxis
      (Real.arccos (min
        (vdot (mapToSurface a.radius a.start)
            (mapToSurface a.radius (adjustPos a.invertY pos)) /
          (vlength (mapToSurface a.radius a.start) *
            vlength (mapToSurface a.radius (adjustPos a.invertY pos)))) 1))
      (vnormalize (vcross (mapToSurface a.radius a.start)
        (mapToSurface a.radius (adjustPos a.invertY pos))))) = 1 :=
    qLength_angleAxis _ _ haxis
  have hcur : (rotate a pos).currentRotation =
      qNormalize (angleAxis
        (Real.arccos (min
          (vdot (mapToSurface a.radius a.start)
              (mapToSurface a.radius (adjustPos a.invertY pos)) /
            (vlength (mapToSurface a.radius a.start) *
              vlength (mapToSurface a.radius (adjustPos a.invertY pos)))) 1))
        (vnormalize (vcross (mapToSurface a.radius a.start)
          (mapToSurface a.radius (adjustPos a.invertY pos))))) := rfl
  rw [hcur, qNormalize_of_unit _ hunit]
  exact ⟨rfl, hunit⟩

/-- Witness for C1: from a fresh arcball of radius `1` with `invertY = true`,
a drag started at `(0, 0)` and moved to `(1, 0)` maps to the surface points
`(0, 0, 1)` and `(1, 0, 0)`, whose cross product is nonzero, and `rotate`
stores the corresponding axis-angle unit quaternion. -/
theorem rotate_sets_incremental_quaternion_witness :
    ((beginRotation (mkArcball 1 true) ⟨0, 0⟩).rotating = true) ∧
    (mapToSurface (beginRotation (mkArcball 1 true) ⟨0, 0⟩).radius
      (beginRotation (mkArcball 1 true) ⟨0, 0⟩).start ≠ vzero) ∧
    (mapToSurface (beginRotation (mkArcball 1 true) ⟨0, 0⟩).radius
      (adjustPos (beginRotation (mkArcball 1 true) ⟨0, 0⟩).invertY ⟨1, 0⟩) ≠ vzero) ∧
    (vcross
      (mapToSurface (beginRotation (mkArcball 1 true) ⟨0, 0⟩).radius
        (beginRotation (mkArcball 1 true) ⟨0, 0⟩).start)
      (mapToSurface (beginRotation (mkArcball 1 true) ⟨0, 0⟩).radius
        (adjustPos (beginRotation (mkArcball 1 true) ⟨0, 0⟩).invertY ⟨1, 0⟩)) ≠ vzero) ∧
    ((rotate (beginRotation (mkArcball 1 true) ⟨0, 0⟩) ⟨1, 0⟩).currentRotation =
      angleAxis
        (Real.arccos (min
          (vdot
            (mapToSurface (beginRotation (mkArcball 1 true) ⟨0, 0⟩).radius
              (beginRotation (mkArcball 1 true) ⟨0, 0⟩).start)
            (mapToSurface (beginRotation (mkArcball 1 true) ⟨0, 0⟩).radius
              (adjustPos (beginRotation (mkArcball 1 true) ⟨0, 0⟩).invertY ⟨1, 0⟩)) /
            (vlength (mapToSurface (beginRotation (mkArcball 1 true) ⟨0, 0⟩).radius
              (beginRotation (mkArcball 1 true) ⟨0, 0⟩).start) *
             vlength (mapToSurface (beginRotation (mkArcball 1 true) ⟨0, 0⟩).radius
              (adjustPos (beginRotation (mkArcball 1 true) ⟨0, 0⟩).invertY ⟨1, 0⟩)))) 1))
        (vnormalize (vcross
          (mapToSurface (beginRotation (mkArcball 1 true) ⟨0, 0⟩).radius
            (beginRotation (mkArcball 1 true) ⟨0, 0⟩).start)
          (mapToSurface (beginRotation (mkArcball 1 true) ⟨0, 0⟩).radius
            (adjustPos (beginRotation (mkArcball 1 true) ⟨0, 0⟩).invertY ⟨1, 0⟩)))) ∧
      qLength (rotate (beginRotation (mkArcball 1 true) ⟨0, 0⟩) ⟨1, 0⟩).currentRotation = 1) :=
  ⟨rfl,
   by norm_num [beginRotation, mkArcball, adjustPos, mapToSurface, vzero],
   by norm_num [beginRotation, mkArcball, adjustPos, mapToSurface, vzero],
   by norm_num [beginRotation, mkArcball, adjustPos, mapToSurface, vcross, vzero],
   rotate_sets_incremental_quaternion (beginRotation (mkArcball 1 true) ⟨0, 0⟩) ⟨1, 0⟩
     rfl
     (by norm_num [beginRotation, mkArcball, adjustPos, mapToSurface, vzero])
     (by norm_num [beginRotation, mkArcball, adjustPos, mapToSurface, vzero])
     (by norm_num [beginRotation, mkArcball, adjustPos, mapToSurface, vcross, vzero])⟩

/-- The cross product of a vector with itself vanishes. -/
theorem vcross_self (v : Vec3) : vcross v v = vzero := by
  unfold vcross vzero
  simp [Vec3.mk.injEq]
  refine ⟨by ring, by ring, by ring⟩

/-- C8: whenever the mapped start and current surface points have a zero cross
product — in particular whenever `rotate` is called with the same position the
drag started at — the unguarded `glm::normalize` inside
`Arcball::computeRotationQuaternion` divides by a zero magnitude: the guarded
embedding of `rotate` reaches its error branch. -/
theorem rotate_zero_cross_division_by_zero :
    (∀ (a : Arcball) (pos : Vec2),
      vcross (mapToSurface a.radius a.start)
        (mapToSurface a.radius (adjustPos a.invertY pos)) = vzero →
      rotateChecked a pos = none) ∧
    (∀ (r : ℝ) (inv : Bool) (p : Vec2),
      rotateChecked (beginRotation (mkArcball r inv) p) p = none) := by
  have main : ∀ (a : Arcball) (pos : Vec2),
      vcross (mapToSurface a.radius a.start)
        (mapToSurface a.radius (adjustPos a.invertY pos)) = vzero →
      rotateChecked a pos = none := by
    intro a pos hcross
    have hz : vlength vzero = 0 := by
      unfold vlength vzero
      norm_num
    simp [rotateChecked, computeRotationQuaternionChecked, vnormalizeChecked, hcross, hz]
  refine ⟨main, fun r inv p => ?_⟩
  apply main
  have hstart : (beginRotation (mkArcball r inv) p).start =
      adjustPos (beginRotation (mkArcball r inv) p).invertY p := rfl
  rw [hstart]
  exact vcross_self _

/-- Witness for C8: a drag begun at `(0, 0)` and rotated at the same position
makes the guarded `rotate` return `none`. -/
theorem rotate_zero_cross_division_by_zero_witness :
    (vcross
      (mapToSurface (beginRotation (mkArcball 1 true) ⟨0, 0⟩).radius
        (beginRotation (mkArcball 1 true) ⟨0, 0⟩).start)
      (mapToSurface (beginRotation (mkArcball 1 true) ⟨0, 0⟩).radius
        (adjustPos (beginRotation (mkArcball 1 true) ⟨0, 0⟩).invertY ⟨0, 0⟩)) = vzero) ∧
    rotateChecked (beginRotation (mkArcball 1 true) ⟨0, 0⟩) ⟨0, 0⟩ = none :=
  ⟨by norm_num [beginRotation, mkArcball, adjustPos, mapToSurface, vcross, vzero],
   rotate_zero_cross_division_by_zero.1 (beginRotation (mkArcball 1 true) ⟨0, 0⟩) ⟨0, 0⟩
     (by norm_num [beginRotation, mkArcball, adjustPos, mapToSurface, vcross, vzero])⟩

/-- One completed drag gesture against the arcball: the position passed to
`beginRotation` followed by the positions of the subsequent `rotate` calls,
the gesture ending with `endRotation`. -/
structure Drag where
  pressPos : Vec2
  moves : List Vec2

/-- Tail of a move sequence: the position of the last `rotate` call. -/
def lastMoveAux (m : Vec2) : List Vec2 → Vec2
  | [] => m
  | m2 :: ms => lastMoveAux m2 ms

/-- Last element of a move list, if any. -/
def lastMove : List Vec2 → Option Vec2
  | [] => none
  | m :: ms => some (lastMoveAux m ms)

/-- Folding a sequence of `rotate` calls over an arcball state. -/
noncomputable def applyRotates (a : Arcball) (ms : List Vec2) : Arcball :=
  ms.foldl rotate a

/-- A full drag gesture: `beginRotation`, the `rotate` calls, `endRotation`. -/
noncomputable def applyDrag (a : Arcball) (d : Drag) : Arcball :=
  endRotation (applyRotates (beginRotation a d.pressPos) d.moves)

/-- A sequence of complete drag gestures. -/
noncomputable def applyDrags (a : Arcball) (ds : List Drag) : Arcball :=
  ds.foldl applyDrag a

/-- The incremental quaternion contributed by one drag: the rotation computed
between the adjusted press position and the adjusted last move (the identity
when the drag saw no `rotate` call). -/
noncomputable def dragQuat (radius : ℝ) (invertY : Bool) (d : Drag) : Quat :=
  match lastMove d.moves with
  | none => IDENTITY_QUATERNION
  | some m =>
      computeRotationQuaternion radius (adjustPos invertY d.pressPos) (adjustPos invertY m)

/-- Left-to-right-most-recent product of the per-drag quaternions:
the quaternion of each successive drag multiplies the accumulator on the left. -/
noncomputable def dragsProduct (radius : ℝ) (invertY : Bool) (ds : List Drag) : Quat :=
  ds.foldl (fun acc d => qMul (dragQuat radius invertY d) acc) IDENTITY_QUATERNION

/-- The identity quaternion is a left unit for the Hamilton product. -/
theorem qMul_identity_left (q : Quat) : qMul IDENTITY_QUATERNION q = q := by
  cases q
  simp [qMul, IDENTITY_QUATERNION]

/-- Effect of a sequence of `rotate` calls: every field but `endPt` and
`currentRotation` is untouched, and the stored incremental quaternion is the
one computed from the start position and the last move. -/
theorem applyRotates_spec (ms : List Vec2) : ∀ a : Arcball,
    (applyRotates a ms).radius = a.radius ∧
    (applyRotates a ms).invertY = a.invertY ∧
    (applyRotates a ms).start = a.start ∧
    (applyRotates a ms).lastRotation = a.lastRotation ∧
    (applyRotates a ms).rotating = a.rotating ∧
    (applyRotates a ms).currentRotation =
      (match lastMove ms with
       | none => a.currentRotation
       | some m => computeRotationQuaternion a.radius a.start (adjustPos a.invertY m)) := by
  induction ms with
  | nil =>
    intro a
    exact ⟨rfl, rfl, rfl, rfl, rfl, rfl⟩
  | cons m rest ih =>
    intro a
    cases rest with
    | nil =>
      exact ⟨rfl, rfl, rfl, rfl, rfl, rfl⟩
    | cons m2 rest2 =>
      obtain ⟨h1, h2, h3, h4, h5, h6⟩ := ih (rotate a m)
      exact ⟨h1, h2, h3, h4, h5, h6⟩

/-- Effect of one complete drag on a state whose incremental quaternion is the
identity: the drag quaternion is composed onto the accumulated orientation on
the left, the incremental quaternion is reset, and the rotating flag cleared. -/
theorem applyDrag_spec (a : Arcball) (d : Drag)
    (hcur : a.currentRotation = IDENTITY_QUATERNION) :
    (applyDrag a d).radius = a.radius ∧
    (applyDrag a d).invertY = a.invertY ∧
    (applyDrag a d).lastRotation = qMul (dragQuat a.radius a.invertY d) a.lastRotation ∧
    (applyDrag a d).currentRotation = IDENTITY_QUATERNION ∧
    (applyDrag a d).rotating = false := by
  obtain ⟨h1, h2, h3, h4, h5, h6⟩ := applyRotates_spec d.moves (beginRotation a d.pressPos)
  refine ⟨h1, h2, ?_, rfl, rfl⟩
  show qMul (applyRotates (beginRotation a d.pressPos) d.moves).currentRotation
      (applyRotates (beginRotation a d.pressPos) d.moves).lastRotation = _
  rw [h4, h6]
  unfold dragQuat
  cases hms : lastMove d.moves with
  | none =>
    show qMul a.currentRotation a.lastRotation = qMul IDENTITY_QUATERNION a.lastRotation
    rw [hcur]
  | some m => rfl

/-- Effect of a sequence of complete drags starting from a quiescent state. -/
theorem applyDrags_spec (ds : List Drag) : ∀ a : Arcball,
    a.currentRotation = IDENTITY_QUATERNION → a.rotating = false →
    (applyDrags a ds).radius = a.radius ∧
    (applyDrags a ds).invertY = a.invertY ∧
    (applyDrags a ds).lastRotation =
      ds.foldl (fun acc d => qMul (dragQuat a.radius a.invertY d) acc) a.lastRotation ∧
    (applyDrags a ds).currentRotation = IDENTITY_QUATERNION ∧
    (applyDrags a ds).rotating = false := by
  induction ds with
  | nil =>
    intro a hcur hrot
    exact ⟨rfl, rfl, rfl, hcur, hrot⟩
  | cons d rest ih =>
    intro a hcur hrot
    obtain ⟨g1, g2, g3, g4, g5⟩ := applyDrag_spec a d hcur
    obtain ⟨h1, h2, h3, h4, h5⟩ := ih (applyDrag a d) g4 g5
    have hstep : applyDrags a (d :: rest) = applyDrags (applyDrag a d) rest := rfl
    rw [hstep]
    refine ⟨h1.trans g1, h2.trans g2, ?_, h4, h5⟩
    rw [h3, g3]
    simp only [List.foldl_cons, g1, g2]

/-- C2: `endRotation` multiplies the accumulated orientation on the left by the
incremental quaternion, resets the incremental quaternion to the identity and
clears the rotating flag; after any sequence of completed drags from a fresh
arcball the accumulated orientation is the left-to-right-most-recent product of
the per-drag quaternions and `getRotationMatrix` is its matrix cast; during a
drag `getRotationMatrix` is the matrix cast of the product of the incremental
and the accumulated quaternion. -/
theorem arcball_composes_drag_quaternions :
    (∀ a : Arcball,
      (endRotation a).lastRotation = qMul a.currentRotation a.lastRotation ∧
      (endRotation a).currentRotation = IDENTITY_QUATERNION ∧
      (endRotation a).rotating = false) ∧
    (∀ (r : ℝ) (inv : Bool) (ds : List Drag),
      (applyDrags (mkArcball r inv) ds).lastRotation = dragsProduct r inv ds ∧
      (applyDrags (mkArcball r inv) ds).currentRotation = IDENTITY_QUATERNION ∧
      (applyDrags (mkArcball r inv) ds).rotating = false ∧
      getRotationMatrix (applyDrags (mkArcball r inv) ds) = mat4cast (dragsProduct r inv ds)) ∧
    (∀ a : Arcball,
      getRotationMatrix a = mat4cast (qMul a.currentRotation a.lastRotation)) := by
  refine ⟨fun a => ⟨rfl, rfl, rfl⟩, fun r inv ds => ?_, fun a => rfl⟩
  obtain ⟨h1, h2, h3, h4, h5⟩ := applyDrags_spec ds (mkArcball r inv) rfl rfl
  have hlast : (applyDrags (mkArcball r inv) ds).lastRotation = dragsProduct r inv ds := h3
  refine ⟨hlast, h4, h5, ?_⟩
  unfold getRotationMatrix
  rw [h4, hlast, qMul_identity_left]


/-- Constant `CameraArcball::MIN_FOV`. -/
def MIN_FOV : ℝ := 1

/-- Constant `CameraArcball::MAX_FOV`. -/
def MAX_FOV : ℝ := 45

/-- Constant `CameraArcball::TRANSLATION_SPEED`. -/
def TRANSLATION_SPEED : ℝ := 7

/-- State of a `CameraArcball` object (camera_arcball.cpp / camera_arcball.h);
the `Arcball` base subobject is the `arc` field. -/
structure CameraArcball where
  arc : Arcball
  position : Vec3
  front : Vec3
  right : Vec3
  up : Vec3
  target : Vec3
  worldUp : Vec3
  fieldOfView : ℝ
  translating : Bool

/-- Body of `CameraArcball::updateCameraVectors()`: the derived
`(front, right, up)` triple for a given position, target and world up. -/
noncomputable def cameraVectors (position target worldUp : Vec3) : Vec3 × Vec3 × Vec3 :=
  let front := vnormalize (vsub position target)
  let right := vnormalize (vcross front worldUp)
  let up := vnormalize (vcross right front)
  (front, right, up)

/-- Constructor `CameraArcball::CameraArcball(position, target, worldUp)`:
the base `Arcball()` is default-constructed, the field of view starts at `45`
(named `MAX_FOV` in one revision of the source and `DEFAULT_FOV` in the other,
both `45.0f`), and `updateCameraVectors()` derives the camera vectors. -/
noncomputable def mkCameraArcball (position target worldUp : Vec3) : CameraArcball :=
  { arc := mkArcball DEFAULT_RADIUS false,
    position := position,
    front := (cameraVectors position target worldUp).1,
    right := (cameraVectors position target worldUp).2.1,
    up := (cameraVectors position target worldUp).2.2,
    target := target,
    worldUp := worldUp,
    fieldOfView := MAX_FOV,
    translating := false }

/-- `CameraArcball::beginTranslation()`. -/
def CameraArcball.beginTranslation (c : CameraArcball) : CameraArcball :=
  { c with translating := true }

/-- `CameraArcball::translate(offset)`. -/
noncomputable def CameraArcball.translate (c : CameraArcball) (offset : ℝ) : CameraArcball :=
  let velocity := -offset * TRANSLATION_SPEED
  { c with position := vadd c.position (vsmul velocity c.front) }

/-- `CameraArcball::endTranslation()`. -/
def CameraArcball.endTranslation (c : CameraArcball) : CameraArcball :=
  { c with translating := false }

/-- `CameraArcball::adjustFOV(offset)`. -/
noncomputable def CameraArcball.adjustFOV (c : CameraArcball) (offset : ℝ) : CameraArcball :=
  let f := c.fieldOfView - offset
  { c with fieldOfView := if f < MIN_FOV then MIN_FOV else if f > MAX_FOV then MAX_FOV else f }

/-- `CameraArcball::getFOV()`. -/
def CameraArcball.getFOV (c : CameraArcball) : ℝ := c.fieldOfView

/-- `CameraArcball::getViewMatrix()`: the look-at transform of the camera
(eye `position`, center the `front` vector, up `up`) times the arcball
rotation matrix, the rotation on the right. -/
noncomputable def CameraArcball.getViewMatrix (c : CameraArcball) : Matrix (Fin 4) (Fin 4) ℝ :=
  lookAtM c.position c.front c.up * getRotationMatrix c.arc

/-- Inherited `Arcball::beginRotation` acting on the base subobject. -/
def caBeginRotation (c : CameraArcball) (pos : Vec2) : CameraArcball :=
  { c with arc := beginRotation c.arc pos }

/-- Inherited `Arcball::rotate` acting on the base subobject. -/
noncomputable def caRotate (c : CameraArcball) (pos : Vec2) : CameraArcball :=
  { c with arc := rotate c.arc pos }

/-- Inherited `Arcball::endRotation` acting on the base subobject. -/
def caEndRotation (c : CameraArcball) : CameraArcball :=
  { c with arc := endRotation c.arc }

/-- States of a `CameraArcball` reachable from construction through its public
interface. -/
inductive CAReachable : CameraArcball → Prop where
  | init (position target worldUp : Vec3) :
      CAReachable (mkCameraArcball position target worldUp)
  | beginTranslationStep (c : CameraArcball) (h : CAReachable c) :
      CAReachable c.beginTranslation
  | translateStep (c : CameraArcball) (offset : ℝ) (h : CAReachable c) :
      CAReachable (c.translate offset)
  | endTranslationStep (c : CameraArcball) (h : CAReachable c) :
      CAReachable c.endTranslation
  | adjustFOVStep (c : CameraArcball) (offset : ℝ) (h : CAReachable c) :
      CAReachable (c.adjustFOV offset)
  | beginRotationStep (c : CameraArcball) (pos : Vec2) (h : CAReachable c) :
      CAReachable (caBeginRotation c pos)
  | rotateStep (c : CameraArcball) (pos : Vec2) (h : CAReachable c) :
      CAReachable (caRotate c pos)
  | endRotationStep (c : CameraArcball) (h : CAReachable c) :
      CAReachable (caEndRotation c)

/-- The branch expression of `adjustFOV` is the clamp into `[MIN_FOV, MAX_FOV]`. -/
theorem fov_branch_eq_clamp (x : ℝ) :
    (if x < MIN_FOV then MIN_FOV else if x > MAX_FOV then MAX_FOV else x) =
      max MIN_FOV (min MAX_FOV x) := by
  unfold MIN_FOV MAX_FOV
  split_ifs with h1 h2
  · rw [min_eq_right (by linarith), max_eq_left (by linarith)]
  · rw [min_eq_left (by linarith), max_eq_right (by norm_num)]
  · rw [min_eq_right (by linarith), max_eq_right (by linarith)]

/-- C4: every reachable `CameraArcball` state has its field of view inside
`[MIN_FOV, MAX_FOV] = [1, 45]`, and `adjustFOV offset` sets it to the clamp of
`fieldOfView - offset` into that interval while changing no other state. -/
theorem cameraArcball_fov_clamped :
    (∀ c : CameraArcball, CAReachable c → MIN_FOV ≤ c.getFOV ∧ c.getFOV ≤ MAX_FOV) ∧
    (∀ (c : CameraArcball) (offset : ℝ),
      (c.adjustFOV offset).fieldOfView = max MIN_FOV (min MAX_FOV (c.fieldOfView - offset)) ∧
      (c.adjustFOV offset).arc = c.arc ∧
      (c.adjustFOV offset).position = c.position ∧
      (c.adjustFOV offset).front = c.front ∧
      (c.adjustFOV offset).right = c.right ∧
      (c.adjustFOV offset).up = c.up ∧
      (c.adjustFOV offset).target = c.target ∧
      (c.adjustFOV offset).worldUp = c.worldUp ∧
      (c.adjustFOV offset).translating = c.translating) := by
  have hclamp : ∀ (c : CameraArcball) (offset : ℝ),
      (c.adjustFOV offset).fieldOfView =
        max MIN_FOV (min MAX_FOV (c.fieldOfView - offset)) := by
    intro c offset
    show (if c.fieldOfView - offset < MIN_FOV then MIN_FOV
      else if c.fieldOfView - offset > MAX_FOV then MAX_FOV
      else c.fieldOfView - offset) = _
    exact fov_branch_eq_clamp _
  constructor
  · intro c hc
    induction hc with
    | init position target worldUp =>
      constructor
      · show MIN_FOV ≤ MAX_FOV
        unfold MIN_FOV MAX_FOV
        norm_num
      · exact le_refl _
    | beginTranslationStep c h ih => exact ih
    | translateStep c offset h ih => exact ih
    | endTranslationStep c h ih => exact ih
    | adjustFOVStep c offset h ih =>
      have heq : (c.adjustFOV offset).getFOV =
          max MIN_FOV (min MAX_FOV (c.fieldOfView - offset)) := hclamp c offset
      rw [heq]
      constructor
      · exact le_max_left _ _
      · refine max_le ?_ (min_le_left _ _)
        unfold MIN_FOV MAX_FOV
        norm_num
    | beginRotationStep c pos h ih => exact ih
    | rotateStep c pos h ih => exact ih
    | endRotationStep c h ih => exact ih
  · intro c offset
    exact ⟨hclamp c offset, rfl, rfl, rfl, rfl, rfl, rfl, rfl, rfl⟩

/-- Witness for C4: after constructing the default orbital camera and zooming
by an offset of `50`, the field of view is still inside `[1, 45]`. -/
theorem cameraArcball_fov_clamped_witness :
    CAReachable ((mkCameraArcball ⟨0, 0, 1⟩ ⟨0, 0, 0⟩ ⟨0, 1, 0⟩).adjustFOV 50) ∧
    (MIN_FOV ≤ ((mkCameraArcball ⟨0, 0, 1⟩ ⟨0, 0, 0⟩ ⟨0, 1, 0⟩).adjustFOV 50).getFOV ∧
     ((mkCameraArcball ⟨0, 0, 1⟩ ⟨0, 0, 0⟩ ⟨0, 1, 0⟩).adjustFOV 50).getFOV ≤ MAX_FOV) :=
  ⟨CAReachable.adjustFOVStep _ 50 (CAReachable.init ⟨0, 0, 1⟩ ⟨0, 0, 0⟩ ⟨0, 1, 0⟩),
   cameraArcball_fov_clamped.1 _
     (CAReachable.adjustFOVStep _ 50 (CAReachable.init ⟨0, 0, 1⟩ ⟨0, 0, 0⟩ ⟨0, 1, 0⟩))⟩

/-- C6: `translate offset` adds `(-offset * TRANSLATION_SPEED)` times the
front vector to the position, with `TRANSLATION_SPEED = 7`, and leaves every
other part of the state — target, worldUp, front, right, up, field of view,
the translating flag and the inherited arcball state — unchanged. -/
theorem translate_moves_position_only (c : CameraArcball) (offset : ℝ) :
    TRANSLATION_SPEED = 7 ∧
    (c.translate offset).position = vadd c.position (vsmul (-offset * 7) c.front) ∧
    (c.translate offset).target = c.target ∧
    (c.translate offset).worldUp = c.worldUp ∧
    (c.translate offset).front = c.front ∧
    (c.translate offset).right = c.right ∧
    (c.translate offset).up = c.up ∧
    (c.translate offset).fieldOfView = c.fieldOfView ∧
    (c.translate offset).translating = c.translating ∧
    (c.translate offset).arc = c.arc :=
  ⟨rfl, rfl, rfl, rfl, rfl, rfl, rfl, rfl, rfl, rfl⟩

/-- C5 (amended): `getViewMatrix` is the look-at transform whose center
argument is the derived front vector (not the target point itself), times the
accumulated arcball rotation matrix on the right; at construction the front
vector is `normalize (position - target)` and the up vector is derived from it
by the two cross products of `updateCameraVectors`. -/
theorem getViewMatrix_lookAt_times_rotation :
    (∀ c : CameraArcball,
      c.getViewMatrix = lookAtM c.position c.front c.up * getRotationMatrix c.arc) ∧
    (∀ position target worldUp : Vec3,
      (mkCameraArcball position target worldUp).front = vnormalize (vsub position target) ∧
      (mkCameraArcball position target worldUp).up =
        vnormalize (vcross
          (vnormalize (vcross (vnormalize (vsub position target)) worldUp))
          (vnormalize (vsub position target)))) :=
  ⟨fun _ => rfl, fun _ _ _ => ⟨rfl, rfl⟩⟩

/-- Counterexample to C5 as stated: for the orbital camera at position
`(0, 0, 1/2)` aimed at the origin, the view matrix the code computes (center
argument = front vector) differs from the look-at transform toward the target:
the two matrices disagree at entry `(2, 2)` (`-1` against `1`). -/
theorem getViewMatrix_center_is_not_target :
    CameraArcball.getViewMatrix (mkCameraArcball ⟨0, 0, 1/2⟩ ⟨0, 0, 0⟩ ⟨0, 1, 0⟩) ≠
      lookAtM (mkCameraArcball ⟨0, 0, 1/2⟩ ⟨0, 0, 0⟩ ⟨0, 1, 0⟩).position
        (mkCameraArcball ⟨0, 0, 1/2⟩ ⟨0, 0, 0⟩ ⟨0, 1, 0⟩).target
        (mkCameraArcball ⟨0, 0, 1/2⟩ ⟨0, 0, 0⟩ ⟨0, 1, 0⟩).up *
      getRotationMatrix (mkCameraArcball ⟨0, 0, 1/2⟩ ⟨0, 0, 0⟩ ⟨0, 1, 0⟩).arc := by
  have h0 : vsub (⟨0, 0, 1/2⟩ : Vec3) ⟨0, 0, 0⟩ = ⟨0, 0, 1/2⟩ := by
    unfold vsub; norm_num
  have hl0 : vlength (⟨0, 0, 1/2⟩ : Vec3) = 1/2 := by
    unfold vlength
    rw [show ((0:ℝ) * 0 + 0 * 0 + 1/2 * (1/2)) = (1/2)^2 by norm_num,
      Real.sqrt_sq (by norm_num)]
  have hf : vnormalize (⟨0, 0, 1/2⟩ : Vec3) = ⟨0, 0, 1⟩ := by
    unfold vnormalize
    rw [hl0]
    unfold vsmul
    norm_num
  have hc1 : vcross (⟨0, 0, 1⟩ : Vec3) ⟨0, 1, 0⟩ = ⟨-1, 0, 0⟩ := by
    unfold vcross; norm_num
  have hl1 : vlength (⟨-1, 0, 0⟩ : Vec3) = 1 := by
    unfold vlength
    rw [show ((-1:ℝ) * (-1) + 0 * 0 + 0 * 0) = 1 by norm_num, Real.sqrt_one]
  have hr : vnormalize (⟨-1, 0, 0⟩ : Vec3) = ⟨-1, 0, 0⟩ := by
    unfold vnormalize
    rw [hl1]
    unfold vsmul
    norm_num
  have hc2 : vcross (⟨-1, 0, 0⟩ : Vec3) ⟨0, 0, 1⟩ = ⟨0, 1, 0⟩ := by
    unfold vcross; norm_num
  have hl2 : vlength (⟨0, 1, 0⟩ : Vec3) = 1 := by
    unfold vlength
    rw [show ((0:ℝ) * 0 + 1 * 1 + 0 * 0) = 1 by norm_num, Real.sqrt_one]
  have hu : vnormalize (⟨0, 1, 0⟩ : Vec3) = ⟨0, 1, 0⟩ := by
    unfold vnormalize
    rw [hl2]
    unfold vsmul
    norm_num
  have hfront : (mkCameraArcball ⟨0, 0, 1/2⟩ ⟨0, 0, 0⟩ ⟨0, 1, 0⟩).front = ⟨0, 0, 1⟩ := by
    show vnormalize (vsub (⟨0, 0, 1/2⟩ : Vec3) ⟨0, 0, 0⟩) = ⟨0, 0, 1⟩
    rw [h0]; exact hf
  have hup : (mkCameraArcball ⟨0, 0, 1/2⟩ ⟨0, 0, 0⟩ ⟨0, 1, 0⟩).up = ⟨0, 1, 0⟩ := by
    show vnormalize (vcross (vnormalize (vcross (vnormalize
      (vsub (⟨0, 0, 1/2⟩ : Vec3) ⟨0, 0, 0⟩)) ⟨0, 1, 0⟩))
      (vnormalize (vsub (⟨0, 0, 1/2⟩ : Vec3) ⟨0, 0, 0⟩))) = ⟨0, 1, 0⟩
    rw [h0, hf, hc1, hr, hc2]; exact hu
  have harc : getRotationMatrix (mkCameraArcball ⟨0, 0, 1/2⟩ ⟨0, 0, 0⟩ ⟨0, 1, 0⟩).arc =
      mat4cast IDENTITY_QUATERNION := by
    show mat4cast (qMul IDENTITY_QUATERNION IDENTITY_QUATERNION) = _
    rw [qMul_identity_left]
  -- the two center arguments: front is `(0,0,1)`, the target is the origin
  have h0c : vsub (⟨0, 0, 1⟩ : Vec3) ⟨0, 0, 1/2⟩ = ⟨0, 0, 1/2⟩ := by
    unfold vsub; norm_num
  have h0b : vsub (⟨0, 0, 0⟩ : Vec3) ⟨0, 0, 1/2⟩ = ⟨0, 0, -1/2⟩ := by
    unfold vsub; norm_num
  have hl0b : vlength (⟨0, 0, -1/2⟩ : Vec3) = 1/2 := by
    unfold vlength
    rw [show ((0:ℝ) * 0 + 0 * 0 + -1/2 * (-1/2)) = (1/2)^2 by norm_num,
      Real.sqrt_sq (by norm_num)]
  have hfb : vnormalize (⟨0, 0, -1/2⟩ : Vec3) = ⟨0, 0, -1⟩ := by
    unfold vnormalize
    rw [hl0b]
    unfold vsmul
    norm_num
  have hc3 : vcross (⟨0, 0, -1⟩ : Vec3) ⟨0, 1, 0⟩ = ⟨1, 0, 0⟩ := by
    unfold vcross; norm_num
  have hl3 : vlength (⟨1, 0, 0⟩ : Vec3) = 1 := by
    unfold vlength
    rw [show ((1:ℝ) * 1 + 0 * 0 + 0 * 0) = 1 by norm_num, Real.sqrt_one]
  have hr3 : vnormalize (⟨1, 0, 0⟩ : Vec3) = ⟨1, 0, 0⟩ := by
    unfold vnormalize
    rw [hl3]
    unfold vsmul
    norm_num
  have hpos : (mkCameraArcball ⟨0, 0, 1/2⟩ ⟨0, 0, 0⟩ ⟨0, 1, 0⟩).position =
      (⟨0, 0, 1/2⟩ : Vec3) := rfl
  have htarget : (mkCameraArcball ⟨0, 0, 1/2⟩ ⟨0, 0, 0⟩ ⟨0, 1, 0⟩).target =
      (⟨0, 0, 0⟩ : Vec3) := rfl
  intro h
  have h22 := congrFun (congrFun h 2) 2
  have hview : CameraArcball.getViewMatrix (mkCameraArcball ⟨0, 0, 1/2⟩ ⟨0, 0, 0⟩ ⟨0, 1, 0⟩) =
      lookAtM ⟨0, 0, 1/2⟩ ⟨0, 0, 1⟩ ⟨0, 1, 0⟩ * mat4cast IDENTITY_QUATERNION := by
    show lookAtM (mkCameraArcball ⟨0, 0, 1/2⟩ ⟨0, 0, 0⟩ ⟨0, 1, 0⟩).position
      (mkCameraArcball ⟨0, 0, 1/2⟩ ⟨0, 0, 0⟩ ⟨0, 1, 0⟩).front
      (mkCameraArcball ⟨0, 0, 1/2⟩ ⟨0, 0, 0⟩ ⟨0, 1, 0⟩).up *
      getRotationMatrix (mkCameraArcball ⟨0, 0, 1/2⟩ ⟨0, 0, 0⟩ ⟨0, 1, 0⟩).arc = _
    rw [hpos, hfront, hup, harc]
  have htgt : lookAtM (mkCameraArcball ⟨0, 0, 1/2⟩ ⟨0, 0, 0⟩ ⟨0, 1, 0⟩).position
      (mkCameraArcball ⟨0, 0, 1/2⟩ ⟨0, 0, 0⟩ ⟨0, 1, 0⟩).target
      (mkCameraArcball ⟨0, 0, 1/2⟩ ⟨0, 0, 0⟩ ⟨0, 1, 0⟩).up *
      getRotationMatrix (mkCameraArcball ⟨0, 0, 1/2⟩ ⟨0, 0, 0⟩ ⟨0, 1, 0⟩).arc =
      lookAtM ⟨0, 0, 1/2⟩ ⟨0, 0, 0⟩ ⟨0, 1, 0⟩ * mat4cast IDENTITY_QUATERNION := by
    rw [hpos, htarget, hup, harc]
  rw [hview, htgt] at h22
  simp only [lookAtM, mat4cast, IDENTITY_QUATERNION, h0c, h0b, hf, hfb, hc1, hc3,
    hr, hr3, Matrix.mul_apply, Fin.sum_univ_four, Matrix.of_apply] at h22
  norm_num [vcross, vdot, Matrix.cons_val_zero, Matrix.cons_val_one, Matrix.head_cons] at h22

/-- Uniform `struct PointLight` of the cube fragment shaders. -/
structure PointLight where
  position : Vec3
  ambient : Vec3
  diffuse : Vec3
  specular : Vec3
  constant : ℝ
  linear : ℝ
  quadratic : ℝ

namespace CubeLightingFS

/-- `calculateBlinnPhongShading()` of src/cube_lighting/cube.fs
(ambient strength `0.1`, specular strength `0.5`, shininess `32`). -/
noncomputable def calculateBlinnPhongShading
    (light : PointLight) (viewPos normal fragPos : Vec3) : Vec3 :=
  let lightDir := vnormalize (vsub light.position fragPos)
  let viewDir := vnormalize (vsub viewPos fragPos)
  let halfwayDir := vnormalize (vadd lightDir viewDir)
  let ambientStrength : ℝ := 0.1
  let ambient := vsmul ambientStrength light.ambient
  let diff := max (vdot normal lightDir) 0
  let diffuse := vsmul diff light.diffuse
  let specularStrength : ℝ := 0.5
  let shininess : ℕ := 32
  let spec := max (vdot viewDir halfwayDir) 0 ^ shininess
  let specular := vsmul (specularStrength * spec) light.specular
  vadd (vadd ambient diffuse) specular

end CubeLightingFS

namespace CubeArcballFS

/-- `calculateBlinnPhongShading()` of src/cube_arcball/cube.fs
(ambient strength `0.1`, specular strength `1.0`, shininess `32`). -/
noncomputable def calculateBlinnPhongShading
    (light : PointLight) (viewPos normal fragPos : Vec3) : Vec3 :=
  let lightDir := vnormalize (vsub light.position fragPos)
  let viewDir := vnormalize (vsub viewPos fragPos)
  let halfwayDir := vnormalize (vadd lightDir viewDir)
  let ambientStrength : ℝ := 0.1
  let ambient := vsmul ambientStrength light.ambient
  let diff := max (vdot normal lightDir) 0
  let diffuse := vsmul diff light.diffuse
  let specularStrength : ℝ := 1.0
  let shininess : ℕ := 32
  let spec := max (vdot viewDir halfwayDir) 0 ^ shininess
  let specular := vsmul (specularStrength * spec) light.specular
  vadd (vadd ambient diffuse) specular

end CubeArcballFS

/-- C7: in both cube fragment shaders the Blinn-Phong value is the sum of
exactly three terms: the ambient strength times the light's ambient color, the
clamped-at-zero dot product of the surface normal with the light direction
times the light's diffuse color, and the specular strength times the
clamped-at-zero dot product of the view direction with the halfway vector
`normalize (lightDir + viewDir)` raised to the shininess power `32`, times the
light's specular color. -/
theorem blinnPhong_is_ambient_plus_diffuse_plus_specular :
    (∀ (light : PointLight) (viewPos normal fragPos : Vec3),
      CubeLightingFS.calculateBlinnPhongShading light viewPos normal fragPos =
        vadd (vadd
          (vsmul 0.1 light.ambient)
          (vsmul (max (vdot normal (vnormalize (vsub light.position fragPos))) 0)
            light.diffuse))
          (vsmul (0.5 *
            max (vdot (vnormalize (vsub viewPos fragPos))
              (vnormalize (vadd (vnormalize (vsub light.position fragPos))
                (vnormalize (vsub viewPos fragPos))))) 0 ^ 32)
            light.specular)) ∧
    (∀ (light : PointLight) (viewPos normal fragPos : Vec3),
      CubeArcballFS.calculateBlinnPhongShading light viewPos normal fragPos =
        vadd (vadd
          (vsmul 0.1 light.ambient)
          (vsmul (max (vdot normal (vnormalize (vsub light.position fragPos))) 0)
            light.diffuse))
          (vsmul (1.0 *
            max (vdot (vnormalize (vsub viewPos fragPos))
              (vnormalize (vadd (vnormalize (vsub light.position fragPos))
                (vnormalize (vsub viewPos fragPos))))) 0 ^ 32)
            light.specular)) :=
  ⟨fun _ _ _ _ => rfl, fun _ _ _ _ => rfl⟩

/-- State of a free-fly `Camera` object (camera.h).  The members appear in
their C++ declaration order: `initialPosition` is declared before `position`. -/
structure Camera where
  initialPosition : Vec3
  position : Vec3
  front : Vec3
  right : Vec3
  up : Vec3
  worldUp : Vec3
  pitch : ℝ
  yaw : ℝ
  movementSpeed : ℝ
  mouseSensitivity : ℝ
  fieldOfView : ℝ

/-- Constant `Camera::DEFAULT_PITCH`. -/
def Camera.DEFAULT_PITCH : ℝ := 0

/-- Constant `Camera::DEFAULT_YAW`. -/
def Camera.DEFAULT_YAW : ℝ := -90

/-- Constant `Camera::DEFAULT_MOVEMENT_SPEED`. -/
def Camera.DEFAULT_MOVEMENT_SPEED : ℝ := 5

/-- Constant `Camera::DEFAULT_MOUSE_SENSITIVITY`. -/
def Camera.DEFAULT_MOUSE_SENSITIVITY : ℝ := 0.1

/-- Constant `Camera::DEFAULT_FOV`. -/
def Camera.DEFAULT_FOV : ℝ := 45

/-- Model of `glm::radians`. -/
noncomputable def radians (degrees : ℝ) : ℝ := degrees * (Real.pi / 180)

/-- `Camera::updateCameraVectors()`: recomputes `front`, `right` and `up` from
pitch, yaw and the world up vector. -/
noncomputable def Camera.updateCameraVectors (c : Camera) : Camera :=
  let reverseDirection : Vec3 :=
    ⟨Real.cos (radians c.pitch) * Real.cos (radians c.yaw),
     Real.sin (radians c.pitch),
     Real.cos (radians c.pitch) * Real.sin (radians c.yaw)⟩
  let front := vnormalize reverseDirection
  let right := vnormalize (vcross front c.worldUp)
  let up := vnormalize (vcross right front)
  { c with front := front, right := right, up := up }

/-- Constructor `Camera::Camera(glm::vec3 position, glm::vec3 worldUp, float
pitch, float yaw)`: here the mem-initialiser `initialPosition(position)` reads
the constructor parameter `position`.  `right` and `up` carry no initialiser in
the source and are set by `updateCameraVectors()`; the pre-update placeholder
`vzero` is immediately overwritten. -/
noncomputable def Camera.mkVec (position worldUp : Vec3) (pitch yaw : ℝ) : Camera :=
  Camera.updateCameraVectors
    { initialPosition := position,
      position := position,
      front := ⟨0, 0, -1⟩,
      right := vzero,
      up := vzero,
      worldUp := worldUp,
      pitch := pitch,
      yaw := yaw,
      movementSpeed := Camera.DEFAULT_MOVEMENT_SPEED,
      mouseSensitivity := Camera.DEFAULT_MOUSE_SENSITIVITY,
      fieldOfView := Camera.DEFAULT_FOV }

/-- Constructor `Camera::Camera(float posX, ..., float pitch, float yaw)`:
its mem-initialiser is `initialPosition(position)`, and since this overload has
no parameter named `position`, it reads the member `position` — which, being
declared after `initialPosition`, is not yet initialised at that point.  The
indeterminate value the member holds is modelled by the explicit
`indeterminatePosition` parameter. -/
noncomputable def Camera.mkScalar
    (posX posY posZ worldUpX worldUpY worldUpZ pitch yaw : ℝ)
    (indeterminatePosition : Vec3) : Camera :=
  Camera.updateCameraVectors
    { initialPosition := indeterminatePosition,
      position := ⟨posX, posY, posZ⟩,
      front := ⟨0, 0, -1⟩,
      right := vzero,
      up := vzero,
      worldUp := ⟨worldUpX, worldUpY, worldUpZ⟩,
      pitch := pitch,
      yaw := yaw,
      movementSpeed := Camera.DEFAULT_MOVEMENT_SPEED,
      mouseSensitivity := Camera.DEFAULT_MOUSE_SENSITIVITY,
      fieldOfView := Camera.DEFAULT_FOV }

/-- `Camera::reset()`. -/
noncomputable def Camera.reset (c : Camera) : Camera :=
  Camera.updateCameraVectors
    { c with position := c.initialPosition,
             pitch := Camera.DEFAULT_PITCH,
             yaw := Camera.DEFAULT_YAW,
             fieldOfView := Camera.DEFAULT_FOV }

/-- C9: after the vec3 constructor, `reset()` restores the constructed position
and the default pitch, yaw and field of view; after the scalar constructor,
however, `reset()` restores whatever indeterminate value the uninitialised
`position` member held when `initialPosition(position)` ran — evaluated here at
the failing input `Camera(1, 2, 3, 0, 1, 0, 0, -90)` with indeterminate value
`(0, 0, 0)`, `reset()` leaves the camera at `(0, 0, 0)`, not at `(1, 2, 3)`. -/
theorem camera_reset_scalar_ctor_loses_position :
    (Camera.reset (Camera.mkScalar 1 2 3 0 1 0 0 (-90) vzero)).position = vzero ∧
    (vzero ≠ (⟨1, 2, 3⟩ : Vec3)) ∧
    (∀ (position worldUp : Vec3) (pitch yaw : ℝ),
      (Camera.reset (Camera.mkVec position worldUp pitch yaw)).position = position ∧
      (Camera.reset (Camera.mkVec position worldUp pitch yaw)).pitch = Camera.DEFAULT_PITCH ∧
      (Camera.reset (Camera.mkVec position worldUp pitch yaw)).yaw = Camera.DEFAULT_YAW ∧
      (Camera.reset (Camera.mkVec position worldUp pitch yaw)).fieldOfView =
        Camera.DEFAULT_FOV) ∧
    (∀ (posX posY posZ worldUpX worldUpY worldUpZ pitch yaw : ℝ)
      (indeterminatePosition : Vec3),
      (Camera.reset (Camera.mkScalar posX posY posZ worldUpX worldUpY worldUpZ
        pitch yaw indeterminatePosition)).position = indeterminatePosition) :=
  ⟨rfl,
   by simp [vzero],
   fun _ _ _ _ => ⟨rfl, rfl, rfl, rfl⟩,
   fun _ _ _ _ _ _ _ _ _ => rfl⟩

/-- Model of C `std::isspace` on the standard whitespace characters. -/
def isCSpace (c : Char) : Bool :=
  c == ' ' || c == '\t' || c == '\n' || c == '\x0b' || c == '\x0c' || c == '\r'

/-- Guarded embedding of the loop of `Logger::trimString`:
`while (std::isspace(text[--end]));`.  The argument is the value of the
unsigned index `end` before the next pre-decrement.  When `end = 0`, the
decrement wraps around to `SIZE_MAX` and `text[SIZE_MAX]` indexes out of
bounds: the error branch `none`. -/
def Logger.trimLoop (text : List Char) : Nat → Option Nat
  | 0 => none
  | e + 1 =>
    match text.get? e with
    | none => none
    | some c => if isCSpace c then Logger.trimLoop text e else some e

/-- `Logger::trimString(text)`: scans from `text.length` downward and keeps
the prefix ending at the last non-whitespace character; `none` when the scan
runs past index zero. -/
def Logger.trimString (text : List Char) : Option (List Char) :=
  (Logger.trimLoop text text.length).map (fun e => text.take (e + 1))

/-- `Logger::log(message)`: builds the entry
`"[" + timestampToString(timestamp) + "] " + trimString(message)`;
the already-formatted timestamp string is a parameter, and the result is
`none` exactly when `trimString` indexes out of bounds. -/
def Logger.log (timestamp : List Char) (message : List Char) : Option (List Char) :=
  (Logger.trimString message).map (fun t => ('[' :: timestamp) ++ (']' :: ' ' :: t))

/-- If every character the scan can reach is whitespace, the trim loop runs
past index zero. -/
theorem trimLoop_none_of_all_space (text : List Char) :
    ∀ n : Nat, (∀ i : Nat, i < n → ∀ c : Char, text.get? i = some c → isCSpace c = true) →
    Logger.trimLoop text n = none := by
  intro n
  induction n with
  | zero => intro _; rfl
  | succ e ih =>
    intro h
    show Logger.trimLoop text (e + 1) = none
    unfold Logger.trimLoop
    cases hg : text.get? e with
    | none => rfl
    | some c =>
      show (if isCSpace c = true then Logger.trimLoop text e else some e) = none
      rw [h e (Nat.lt_succ_self e) c hg, if_pos rfl]
      exact ih (fun i hi c2 hg2 => h i (Nat.lt_succ_of_lt hi) c2 hg2)

/-- Conversely, when the trim loop starting inside the string runs past index
zero, every scanned character is whitespace. -/
theorem all_space_of_trimLoop_none (text : List Char) :
    ∀ n : Nat, n ≤ text.length → Logger.trimLoop text n = none →
    ∀ i : Nat, i < n → ∀ c : Char, text.get? i = some c → isCSpace c = true := by
  intro n
  induction n with
  | zero => intro _ _ i hi; exact absurd hi (Nat.not_lt_zero i)
  | succ e ih =>
    intro hlen hnone i hi c hgc
    have he : e < text.length := Nat.lt_of_succ_le hlen
    have hg : text.get? e = some (text.get ⟨e, he⟩) := List.get?_eq_get he
    unfold Logger.trimLoop at hnone
    rw [hg] at hnone
    by_cases hsp : isCSpace (text.get ⟨e, he⟩) = true
    · simp only [hsp, if_true] at hnone
      rcases Nat.lt_succ_iff_lt_or_eq.mp hi with hlt | heq
      · exact ih (Nat.le_of_lt he) hnone i hlt c hgc
      · subst heq
        rw [hg] at hgc
        have hc : c = text.get ⟨i, he⟩ := (Option.some.injEq _ _).mp hgc.symm
        rw [hc]
        exact hsp
    · rw [Bool.not_eq_true] at hsp
      simp only [List.get_eq_getElem] at hsp
      simp [hsp] at hnone

/-- C10: `Logger::log` reaches the out-of-bounds error branch of `trimString`
exactly on the unsafe inputs: the guarded embedding returns `none` if and only
if the message is empty or consists entirely of whitespace, so `log` is only
safe for messages containing at least one non-whitespace character. -/
theorem log_safe_iff_nonwhitespace (timestamp message : List Char) :
    Logger.log timestamp message = none ↔ ∀ c ∈ message, isCSpace c = true := by
  unfold Logger.log Logger.trimString
  rw [Option.map_eq_none', Option.map_eq_none']
  constructor
  · intro hnone c hc
    obtain ⟨i, hgi⟩ := List.get?_of_mem hc
    have hlt : i < message.length := (List.get?_eq_some.mp hgi).1
    exact all_space_of_trimLoop_none message message.length (le_refl _) hnone i hlt c hgi
  · intro hall
    exact trimLoop_none_of_all_space message message.length
      (fun i hi c hgc => hall c (List.get?_mem hgc))

/-- Witness for C10: logging the two-blank message reaches the error branch. -/
theorem log_safe_iff_nonwhitespace_witness :
    Logger.log [] [' ', ' '] = none :=
  (log_safe_iff_nonwhitespace [] [' ', ' ']).mpr (by decide)
